import Mathlib

/-!
Verification of the polling filesystem watcher (package watcher, src/watcher.go).

The Go source is shallowly embedded: Go maps from path to file metadata become
association lists with distinct keys, Go map iteration order becomes the list
order (theorems quantify over all lists, hence over all admissible iteration
orders), channel-based event delivery becomes the list of events produced by one
poll cycle, and the dispatcher loop in Start becomes a function from that list
to the list of events forwarded to the consumer.  The path helpers from the Go
standard library used by the source (filepath.Clean, Dir, Join, Abs on Unix
paths, strings.HasPrefix) are embedded as pure functions over the underlying
character lists.
-/

set_option autoImplicit false

/-- Metadata of one file system entry, mirroring the os.FileInfo values the
watcher stores: base name, size, permission mode bits, modification time
(time.Time values are compared with structural equality in the source, so an
abstract integer instant suffices) and the directory flag. -/
structure FileInfo where
  name : String
  size : Int
  mode : Nat
  modTime : Int
  dir : Bool
deriving DecidableEq, Repr

/-- The operation kinds of the Op enumeration in the source. -/
inductive Op where
  | Create
  | Write
  | Remove
  | Rename
  | Chmod
  | Move
deriving DecidableEq, Repr

/-- An Event as produced by the watcher: operation kind, path (for Rename and
Move an encoded "old -> new" pair) and the metadata of the triggering entry. -/
structure Event where
  op : Op
  path : String
  info : FileInfo
deriving DecidableEq, Repr

/-- A snapshot: the files map from absolute path to metadata. -/
abbrev Snapshot := List (String × FileInfo)

/-- Lookup in an association list, mirroring Go map indexing. -/
def lookupKey {α : Type} : List (String × α) → String → Option α
  | [], _ => none
  | e :: rest, k => if e.1 = k then some e.2 else lookupKey rest k

/-- Deletion of a key, mirroring the Go builtin delete on a map. -/
def eraseKey {α : Type} (l : List (String × α)) (k : String) : List (String × α) :=
  l.filter (fun e => !(e.1 == k))

/-- Go map assignment m[k] = v: replace the entry if the key is present,
otherwise append a fresh entry. -/
def setKey {α : Type} (l : List (String × α)) (k : String) (v : α) : List (String × α) :=
  if (lookupKey l k).isSome then l.map (fun e => if e.1 == k then (k, v) else e)
  else l ++ [(k, v)]

/-- Copying every entry of the second map into the first, mirroring the
for k, v := range src left with dst[k] = v loops of Add and AddRecursive. -/
def mapUpsert {α : Type} (base adds : List (String × α)) : List (String × α) :=
  adds.foldl (fun acc e => setKey acc e.1 e.2) base

/-- Splitting a character list at every slash, keeping empty components. -/
def splitComps : List Char → List (List Char)
  | [] => [[]]
  | c :: rest =>
    let r := splitComps rest
    if c = '/' then [] :: r
    else
      match r with
      | [] => [[c]]
      | h :: t => (c :: h) :: t

/-- The component loop of Go filepath.Clean on Unix paths: skip empty and dot
components, resolve dotdot against the accumulated output (dropping it at the
root when the path is rooted, keeping it otherwise). -/
def cleanCore (rooted : Bool) : List (List Char) → List (List Char) → List (List Char)
  | [], acc => acc.reverse
  | c :: rest, acc =>
    if c = [] ∨ c = ['.'] then cleanCore rooted rest acc
    else if c = ['.', '.'] then
      match acc with
      | [] =>
        if rooted then cleanCore rooted rest []
        else cleanCore rooted rest [['.', '.']]
      | a :: acc2 =>
        if a = ['.', '.'] then cleanCore rooted rest (['.', '.'] :: a :: acc2)
        else cleanCore rooted rest acc2
    else cleanCore rooted rest (c :: acc)

/-- Joining cleaned components back with slashes. -/
def joinComps : List (List Char) → List Char
  | [] => []
  | [c] => c
  | c :: rest => c ++ '/' :: joinComps rest

/-- Go filepath.Clean on Unix paths, over character lists. -/
def cleanChars (cs : List Char) : List Char :=
  match cs with
  | [] => ['.']
  | c0 :: _ =>
    let rooted := c0 = '/'
    let out := joinComps (cleanCore rooted (splitComps cs) [])
    if rooted then '/' :: out
    else if out = [] then ['.'] else out

/-- Go filepath.Clean on Unix paths. -/
def goClean (s : String) : String :=
  String.mk (cleanChars s.data)

/-- Go filepath.Dir on Unix paths: everything up to and including the final
slash, cleaned; a path without a slash has directory ".". -/
def goDir (s : String) : String :=
  String.mk (cleanChars ((s.data.reverse.dropWhile (fun c => c ≠ '/')).reverse))

/-- Go strings.HasPrefix(s, pre). -/
def strStarts (s pre : String) : Bool :=
  pre.data.isPrefixOf s.data

/-- Go filepath.IsAbs on Unix paths. -/
def isAbsPath (s : String) : Bool :=
  match s.data with
  | '/' :: _ => true
  | _ => false

/-- Go filepath.Abs: an absolute path is cleaned; a relative path is joined to
the working directory.  The working directory is the result of os.Getwd, an
external collaborator, modelled as an Except value so that its failure mode is
representable. -/
def goAbs (cwd : Except String String) (path : String) : Except String String :=
  if isAbsPath path then .ok (goClean path)
  else
    match cwd with
    | .error e => .error e
    | .ok c => .ok (goClean (String.mk (c.data ++ '/' :: path.data)))

/-- Go filepath.Join(a, b) for a nonempty first argument. -/
def joinPath (a b : String) : String :=
  goClean (String.mk (a.data ++ '/' :: b.data))

/-- The "old -> new" path encoding used for Rename and Move events. -/
def movePath (p q : String) : String :=
  p ++ " -> " ++ q

/-- Modelled from the spec: the function sameFile is called by pollEvents in
src/watcher.go but its definition is not part of the sources under src/.  The
spec defines metadata as "the same file" exactly when size, modification time
and permission bits all match (no content hash). -/
def sameFile (a b : FileInfo) : Bool :=
  a.size == b.size && a.modTime == b.modTime && a.mode == b.mode

/-- The removal candidates of pollEvents: entries of the old snapshot whose
path is absent from the new snapshot. -/
def diffRemoves (old new : Snapshot) : Snapshot :=
  old.filter (fun e => (lookupKey new e.1).isNone)

/-- The creation candidates of pollEvents: entries of the new snapshot whose
path is absent from the old snapshot. -/
def diffCreates (old new : Snapshot) : Snapshot :=
  new.filter (fun e => (lookupKey old e.1).isNone)

/-- The Write and Chmod events of pollEvents: for every path present in both
snapshots, a Write event when the modification times differ followed by a
Chmod event when the permission modes differ, carrying the new metadata. -/
def writeChmodEvents (old new : Snapshot) : List Event :=
  new.flatMap (fun e =>
    match lookupKey old e.1 with
    | none => []
    | some oldInfo =>
      (if oldInfo.modTime ≠ e.2.modTime then [Event.mk Op.Write e.1 e.2] else [])
        ++ (if oldInfo.mode ≠ e.2.mode then [Event.mk Op.Chmod e.1 e.2] else []))

/-- The rename and move pairings of pollEvents.  The outer loop ranges over the
removal candidates; for each one the inner loop ranges over the creation
candidates still present and pairs it with every candidate whose metadata
matches (the Go loop deletes a matched creation candidate from the map but
keeps scanning with the same removal candidate, so one removal candidate can
pair with several creation candidates). -/
def pairCandidates : List (String × FileInfo) → List (String × FileInfo) →
    List ((String × FileInfo) × (String × FileInfo))
  | [], _ => []
  | r :: rest, creates =>
    (creates.filter (fun c => sameFile r.2 c.2)).map (fun c => (r, c))
      ++ pairCandidates rest (creates.filter (fun c => !(sameFile r.2 c.2)))

/-- The removal candidates left after rename and move resolution: those that
matched no creation candidate at the moment they were scanned. -/
def unmatchedRemoves : List (String × FileInfo) → List (String × FileInfo) →
    List (String × FileInfo)
  | [], _ => []
  | r :: rest, creates =>
    (if (creates.filter (fun c => sameFile r.2 c.2)).isEmpty then [r] else [])
      ++ unmatchedRemoves rest (creates.filter (fun c => !(sameFile r.2 c.2)))

/-- The creation candidates left after rename and move resolution. -/
def unmatchedCreates : List (String × FileInfo) → List (String × FileInfo) →
    List (String × FileInfo)
  | [], creates => creates
  | r :: rest, creates =>
    unmatchedCreates rest (creates.filter (fun c => !(sameFile r.2 c.2)))

/-- The event built for one rename or move pairing: Move, downgraded to Rename
when the two paths share their parent directory, with the "old -> new" path and
the metadata of the old entry. -/
def mkMoveEvent (pr : (String × FileInfo) × (String × FileInfo)) : Event :=
  Event.mk (if goDir pr.1.1 = goDir pr.2.1 then Op.Rename else Op.Move)
    (movePath pr.1.1 pr.2.1) pr.1.2

/-- The event built for a surviving creation candidate. -/
def mkCreateEvent (c : String × FileInfo) : Event :=
  Event.mk Op.Create c.1 c.2

/-- The event built for a surviving removal candidate. -/
def mkRemoveEvent (r : String × FileInfo) : Event :=
  Event.mk Op.Remove r.1 r.2

/-- pollEvents of src/watcher.go as the list of events emitted for one cycle,
in emission order: Write and Chmod events, then rename and move resolution,
then leftover Create events, then leftover Remove events. -/
def pollEvents (old new : Snapshot) : List Event :=
  writeChmodEvents old new
    ++ (pairCandidates (diffRemoves old new) (diffCreates old new)).map mkMoveEvent
    ++ (unmatchedCreates (diffRemoves old new) (diffCreates old new)).map mkCreateEvent
    ++ (unmatchedRemoves (diffRemoves old new) (diffCreates old new)).map mkRemoveEvent

/-- The dispatcher loop of Start over one cycle of pending events: an event
whose kind is missing from a configured non-empty filter is dropped without
touching the counter; otherwise the counter is incremented and, once a positive
maximum is exceeded, delivery for the cycle is aborted; otherwise the event is
forwarded to the consumer. -/
def dispatchLoop (opsF : List Op) (maxEv : Int) : List Event → Int → List Event
  | [], _ => []
  | e :: rest, n =>
    if 0 < opsF.length ∧ opsF.contains e.op = false then dispatchLoop opsF maxEv rest n
    else if 0 < maxEv ∧ maxEv < n + 1 then []
    else e :: dispatchLoop opsF maxEv rest (n + 1)

/-- One cycle of the dispatcher, starting from a zero event counter. -/
def dispatchCycle (opsF : List Op) (maxEv : Int) (evts : List Event) : List Event :=
  dispatchLoop opsF maxEv evts 0

/-- The mutable state of a Watcher: the running flag, the watch root registry
names (path to recursive flag), the files snapshot, the ignore set, the
operation filter, the hidden suppression flag and the event cap. -/
structure WatcherState where
  running : Bool := false
  names : List (String × Bool) := []
  files : List (String × FileInfo) := []
  ignored : List String := []
  opsF : List Op := []
  ignoreHidden : Bool := false
  maxEvents : Int := 0
deriving DecidableEq, Repr

/-- The synchronous failures of Start. -/
inductive StartError where
  | durationTooShort
  | alreadyRunning
deriving DecidableEq, Repr

/-- The guard of Start: an interval below one nanosecond (durations are int64
nanosecond counts) is rejected before any state is touched; a watcher already
running is left untouched; otherwise the running flag is set and the loop is
entered. -/
def startCheck (w : WatcherState) (d : Int) : Except StartError WatcherState :=
  if d < 1 then .error .durationTooShort
  else if w.running then .error .alreadyRunning
  else .ok { w with running := true }

/-- A file system subtree, the external data the listing primitives walk over:
the metadata of the entry and, when it is a directory, its children in the
order the walk visits them. -/
inductive FsNode where
  | node : FileInfo → List FsNode → FsNode

/-- The metadata of the root entry of a subtree. -/
def FsNode.info : FsNode → FileInfo
  | .node i _ => i

/-- The children of the root entry of a subtree. -/
def FsNode.children : FsNode → List FsNode
  | .node _ c => c

/-- The list method of the watcher on a stat-resolved root: the root entry is
recorded unconditionally and, when it is a directory, every immediate child is
recorded unless its path is in the ignore set or its name is hidden while
hidden suppression is on. -/
def goListDir (ign : List String) (ih : Bool) (name : String) (n : FsNode) :
    List (String × FileInfo) :=
  (name, n.info) ::
    (if n.info.dir then
      n.children.filterMap (fun c =>
        if ign.contains (joinPath name c.info.name) || (ih && strStarts c.info.name ".")
        then none
        else some (joinPath name c.info.name, c.info))
    else [])

/-- The listRecursive method of the watcher: a depth-first walk that skips an
ignored or hidden-suppressed entry, pruning its whole subtree when it is a
directory.  The fuel parameter bounds the recursion depth; every theorem
quantifies over it. -/
def goWalkF (ign : List String) (ih : Bool) : Nat → String → FsNode →
    List (String × FileInfo)
  | 0, _, _ => []
  | fuel + 1, path, n =>
    if ign.contains path || (ih && strStarts n.info.name ".") then []
    else (path, n.info) ::
      (if n.info.dir then
        n.children.flatMap (fun c => goWalkF ign ih fuel (joinPath path c.info.name) c)
      else [])

/-- The Add method: resolve to an absolute path, do nothing when the resolved
path is in the ignore set or when hidden suppression is on and the resolved
path starts with a dot, otherwise list the path and merge the result into the
files snapshot and register a non-recursive root. -/
def goAdd (cwd : Except String String) (fs : String → Option FsNode)
    (w : WatcherState) (name0 : String) : Except String WatcherState :=
  match goAbs cwd name0 with
  | .error e => .error e
  | .ok name =>
    if w.ignored.contains name || (w.ignoreHidden && strStarts name ".") then .ok w
    else
      match fs name with
      | none => .error "stat: no such file or directory"
      | some n =>
        .ok { w with
          files := mapUpsert w.files (goListDir w.ignored w.ignoreHidden name n)
          names := setKey w.names name false }

/-- The AddRecursive method: resolve to an absolute path, walk it recursively
and merge the result into the files snapshot, then register a recursive root.
No ignore or hidden check is applied to the argument itself. -/
def goAddRecursive (cwd : Except String String) (fs : String → Option FsNode)
    (fuel : Nat) (w : WatcherState) (name0 : String) : Except String WatcherState :=
  match goAbs cwd name0 with
  | .error e => .error e
  | .ok name =>
    match fs name with
    | none => .error "lstat: no such file or directory"
    | some n =>
      .ok { w with
        files := mapUpsert w.files (goWalkF w.ignored w.ignoreHidden fuel name n)
        names := setKey w.names name true }

/-- The Remove method: resolve, drop the exact path from the root registry,
and if the path is tracked delete it from the snapshot, together with its
immediate children (entries whose parent directory is the path) when its
tracked metadata is a directory. -/
def goRemove (cwd : Except String String) (w : WatcherState) (name0 : String) :
    Except String WatcherState :=
  match goAbs cwd name0 with
  | .error e => .error e
  | .ok name =>
    match lookupKey w.files name with
    | none => .ok { w with names := eraseKey w.names name }
    | some info =>
      if info.dir then
        .ok { w with
          names := eraseKey w.names name
          files := w.files.filter (fun e => !(e.1 == name) && !(goDir e.1 == name)) }
      else
        .ok { w with names := eraseKey w.names name, files := eraseKey w.files name }

/-- The RemoveRecursive method: resolve, drop the exact path from the root
registry, and if the path is tracked delete it from the snapshot, together with
every tracked entry whose path has it as a string prefix when its tracked
metadata is a directory. -/
def goRemoveRecursive (cwd : Except String String) (w : WatcherState)
    (name0 : String) : Except String WatcherState :=
  match goAbs cwd name0 with
  | .error e => .error e
  | .ok name =>
    match lookupKey w.files name with
    | none => .ok { w with names := eraseKey w.names name }
    | some info =>
      if info.dir then
        .ok { w with
          names := eraseKey w.names name
          files := w.files.filter (fun e => !(strStarts e.1 name)) }
      else
        .ok { w with names := eraseKey w.names name, files := eraseKey w.files name }

/-- The Ignore method over its argument list: resolve each path, remove it
recursively from tracking, then add it to the ignore set; on the first failure
the error is returned at once, with the effects of the earlier iterations
already applied.  The pair carries the state reached and the returned error. -/
def goIgnore (cwd : Except String String) : WatcherState → List String →
    WatcherState × Option String
  | w, [] => (w, none)
  | w, p :: rest =>
    match goAbs cwd p with
    | .error e => (w, some e)
    | .ok q =>
      match goRemoveRecursive cwd w q with
      | .error e => (w, some e)
      | .ok w1 => goIgnore cwd { w1 with ignored := w1.ignored.insert q } rest

/-- Keys of an association list are pairwise distinct, the invariant of every
snapshot produced from a Go map. -/
abbrev nodupKeys {α : Type} (l : List (String × α)) : Prop :=
  (l.map Prod.fst).Nodup

/-- The number of terminal events a removal candidate path accounts for in an
event list: Remove events at the path itself plus Rename and Move events whose
encoded path starts with the candidate followed by the arrow separator. -/
def removalTerminalCount (evts : List Event) (p : String) : Nat :=
  (evts.filter (fun e =>
    (e.op == Op.Remove && e.path == p)
      || ((e.op == Op.Rename || e.op == Op.Move)
            && (p ++ " -> ").data.isPrefixOf e.path.data))).length

/-- Concrete instantiation of diff_no_change_no_events at a two-entry snapshot
diffed against itself. -/
def exSnapC2 : Snapshot :=
  [("/w/f1", FileInfo.mk "f1" 10 420 100 false),
   ("/w", FileInfo.mk "w" 0 493 90 true)]

/-- Concrete event list for the dispatcher witness: two Write events pending in
one cycle, plus a Chmod event that a Write-only filter drops. -/
def exEvtsC5 : List Event :=
  [Event.mk Op.Chmod "/w/f0" (FileInfo.mk "f0" 1 420 5 false),
   Event.mk Op.Write "/w/f1" (FileInfo.mk "f1" 2 420 6 false),
   Event.mk Op.Write "/w/f2" (FileInfo.mk "f2" 3 420 7 false)]

/-- Concrete watcher state for the Remove witness: a tracked directory with an
immediate child and a nested descendant. -/
def exStateC9 : WatcherState :=
  { names := [("/d", false)]
    files := [("/d", FileInfo.mk "d" 0 493 1 true),
              ("/d/f", FileInfo.mk "f" 5 420 2 false),
              ("/d/sub", FileInfo.mk "sub" 0 493 3 true),
              ("/d/sub/g", FileInfo.mk "g" 7 420 4 false)] }

/-- Old snapshot for the ordering and classification witnesses. -/
def exOldC4 : Snapshot :=
  [("/a/x", FileInfo.mk "x" 10 420 100 false)]

/-- New snapshot for the ordering witness: same path, newer modification
time. -/
def exNewC4 : Snapshot :=
  [("/a/x", FileInfo.mk "x" 10 420 200 false)]

/-- Old snapshot for the classification witness: one file about to vanish. -/
def exOldC3 : Snapshot :=
  [("/a/x", FileInfo.mk "x" 10 420 100 false)]

/-- New snapshot for the classification witness: the same metadata under a new
name in the same directory. -/
def exNewC3 : Snapshot :=
  [("/a/y", FileInfo.mk "y" 10 420 100 false)]

/-- Old snapshot for the double-pairing counterexample: one file vanishes. -/
def exOldC1 : Snapshot := [("/a/x", FileInfo.mk "x" 10 420 100 false)]

/-- New snapshot for the double-pairing counterexample: two fresh files whose
metadata both match the vanished one. -/
def exNewC1 : Snapshot :=
  [("/a/y", FileInfo.mk "y" 10 420 100 false),
   ("/a/z", FileInfo.mk "z" 10 420 100 false)]

/-- Concrete watcher state for the Ignore counterexample: a nested path is
tracked as a recursive root, while the path about to be ignored is not itself
tracked. -/
def exStateC7 : WatcherState :=
  { names := [("/a/b/c", true)]
    files := [("/a/b/c", FileInfo.mk "c" 0 493 1 true)] }

/-- Concrete watcher state for the Ignore atomicity witness: one tracked
file. -/
def exStateC10 : WatcherState :=
  { names := [("/a", false)]
    files := [("/a", FileInfo.mk "a" 3 420 9 false)] }

/-- File system oracle for the Add counterexample: a hidden file exists at the
probed absolute path. -/
def exFsC8 : String → Option FsNode :=
  fun s =>
    if s = "/tmp/.h" then some (FsNode.node (FileInfo.mk ".h" 5 420 7 false) [])
    else none

/-- Watcher state for the Add counterexample: hidden suppression is on and
nothing is tracked. -/
def exStateC8 : WatcherState := { ignoreHidden := true }

/-- File system oracle for the AddRecursive witness: a directory exists at the
ignored path. -/
def exFsC8b : String → Option FsNode :=
  fun s =>
    if s = "/ig" then some (FsNode.node (FileInfo.mk "ig" 0 493 2 true) [])
    else none

/-- Watcher state for the AddRecursive witness: one ignored path. -/
def exStateC8b : WatcherState := { ignored := ["/ig"] }

/-- Lookup succeeds for any key that occurs in the list. -/
theorem lookupKey_isSome_of_mem {α : Type} {l : List (String × α)} {p : String} {i : α}
    (h : (p, i) ∈ l) : (lookupKey l p).isSome = true := by
  induction l with
  | nil => cases h
  | cons e t ih =>
    rcases List.mem_cons.1 h with h1 | h2
    · have he : e.1 = p := by rw [← h1]
      simp [lookupKey, he]
    · by_cases he : e.1 = p
      · simp [lookupKey, he]
      · simpa [lookupKey, he] using ih h2

/-- With distinct keys, lookup returns exactly the stored value. -/
theorem lookupKey_eq_of_nodup {α : Type} {l : List (String × α)} (hn : nodupKeys l)
    {p : String} {i : α} (h : (p, i) ∈ l) : lookupKey l p = some i := by
  induction l with
  | nil => cases h
  | cons e t ih =>
    have hn2 : (e.1 ∉ t.map Prod.fst) ∧ (t.map Prod.fst).Nodup := by
      simpa [nodupKeys] using hn
    rcases List.mem_cons.1 h with h1 | h2
    · rw [← h1]
      simp [lookupKey]
    · by_cases he : e.1 = p
      · exact absurd (he ▸ List.mem_map_of_mem Prod.fst h2) hn2.1
      · simpa [lookupKey, he] using ih hn2.2 h2

/-- A filter over a list none of whose elements pass is empty. -/
theorem filter_eq_nil_of_all {α : Type} {l : List α} {p : α → Bool}
    (h : ∀ a ∈ l, p a = false) : l.filter p = [] := by
  induction l with
  | nil => rfl
  | cons a t ih =>
    have := h a (List.mem_cons_self a t)
    simp [List.filter_cons, this, ih fun b hb => h b (List.mem_cons_of_mem a hb)]

/-- A flatMap all of whose pieces are empty is empty. -/
theorem flatMap_eq_nil_of_all {α β : Type} {l : List α} {f : α → List β}
    (h : ∀ a ∈ l, f a = []) : l.flatMap f = [] := by
  induction l with
  | nil => rfl
  | cons a t ih =>
    simp [List.flatMap_cons, h a (List.mem_cons_self a t),
      ih fun b hb => h b (List.mem_cons_of_mem a hb)]

/-- Claim C2: diff of two snapshots that track the same paths with equal
modification times and equal permission modes emits no events at all; in
particular diff(A, A) yields no events. -/
theorem diff_no_change_no_events (old new : Snapshot)
    (hnew : nodupKeys new)
    (hdom : ∀ p : String, (lookupKey old p).isSome = (lookupKey new p).isSome)
    (heq : ∀ (p : String) (i j : FileInfo), lookupKey old p = some i →
      lookupKey new p = some j → i.modTime = j.modTime ∧ i.mode = j.mode) :
    pollEvents old new = [] := by
  have hrem : diffRemoves old new = [] := by
    apply filter_eq_nil_of_all
    intro e he
    have h1 : (lookupKey old e.1).isSome = true :=
      lookupKey_isSome_of_mem (by simpa using he)
    have h2 : (lookupKey new e.1).isSome = true := by rw [← hdom]; exact h1
    cases hx : lookupKey new e.1 with
    | none => rw [hx] at h2; cases h2
    | some v => simp [hx]
  have hcre : diffCreates old new = [] := by
    apply filter_eq_nil_of_all
    intro e he
    have h2 : (lookupKey new e.1).isSome = true :=
      lookupKey_isSome_of_mem (by simpa using he)
    have h1 : (lookupKey old e.1).isSome = true := by rw [hdom]; exact h2
    cases hx : lookupKey old e.1 with
    | none => rw [hx] at h1; cases h1
    | some v => simp [hx]
  have hwc : writeChmodEvents old new = [] := by
    apply flatMap_eq_nil_of_all
    intro e he
    have hnew2 : lookupKey new e.1 = some e.2 :=
      lookupKey_eq_of_nodup hnew (by simpa using he)
    cases hx : lookupKey old e.1 with
    | none => rfl
    | some oldInfo =>
      have hmm := heq e.1 oldInfo e.2 hx hnew2
      simp [hmm.1, hmm.2]
  simp [pollEvents, hrem, hcre, hwc, pairCandidates, unmatchedRemoves, unmatchedCreates]

/-- Witness for Claim C2: diffing the concrete snapshot against itself emits
nothing. -/
theorem diff_no_change_no_events_witness : pollEvents exSnapC2 exSnapC2 = [] :=
  diff_no_change_no_events exSnapC2 exSnapC2 (by decide) (fun _ => rfl)
    (fun p i j hi hj => by rw [hi] at hj; cases hj; exact ⟨rfl, rfl⟩)

/-- One unfolding step of the dispatcher loop. -/
theorem dispatchLoop_cons (opsF : List Op) (maxEv : Int) (e : Event)
    (rest : List Event) (n : Int) :
    dispatchLoop opsF maxEv (e :: rest) n =
      if 0 < opsF.length ∧ opsF.contains e.op = false then dispatchLoop opsF maxEv rest n
      else if 0 < maxEv ∧ maxEv < n + 1 then []
      else e :: dispatchLoop opsF maxEv rest (n + 1) := rfl

/-- Filter-dropped events have no effect at all on the dispatcher: running the
loop on a cycle equals running it on the cycle restricted to events whose kind
passes the non-empty filter, at every counter value. -/
theorem dispatchLoop_filter_erasure (opsF : List Op) (maxEv : Int) (h : opsF ≠ []) :
    ∀ (evts : List Event) (n : Int),
      dispatchLoop opsF maxEv evts n
        = dispatchLoop opsF maxEv (evts.filter (fun e => opsF.contains e.op)) n
  | [], _ => rfl
  | e :: rest, n => by
    have hl : 0 < opsF.length := List.length_pos.2 h
    by_cases hcnd : 0 < opsF.length ∧ opsF.contains e.op = false
    · have hfe : (e :: rest).filter (fun e => opsF.contains e.op)
          = rest.filter (fun e => opsF.contains e.op) := by
        rw [List.filter_cons, hcnd.2]
        simp
      rw [hfe, dispatchLoop_cons, if_pos hcnd]
      exact dispatchLoop_filter_erasure opsF maxEv h rest n
    · have hct : opsF.contains e.op = true := by
        cases hcc : opsF.contains e.op
        · exact absurd ⟨hl, hcc⟩ hcnd
        · rfl
      have hfe : (e :: rest).filter (fun e => opsF.contains e.op)
          = e :: rest.filter (fun e => opsF.contains e.op) := by
        rw [List.filter_cons, hct]
        simp
      rw [hfe, dispatchLoop_cons, dispatchLoop_cons, if_neg hcnd, if_neg hcnd]
      by_cases hcap : 0 < maxEv ∧ maxEv < n + 1
      · rw [if_pos hcap, if_pos hcap]
      · rw [if_neg hcap, if_neg hcap]
        exact congrArg (e :: ·) (dispatchLoop_filter_erasure opsF maxEv h rest (n + 1))

/-- The dispatcher forwards at most (maxEv - n) further events when the counter
already stands at n and a positive cap is configured. -/
theorem dispatchLoop_cap (opsF : List Op) (maxEv : Int) (hm : 0 < maxEv) :
    ∀ (evts : List Event) (n : Int),
      (dispatchLoop opsF maxEv evts n).length ≤ (maxEv - n).toNat
  | [], _ => by simp [dispatchLoop]
  | e :: rest, n => by
    rw [dispatchLoop_cons]
    by_cases hc : 0 < opsF.length ∧ opsF.contains e.op = false
    · rw [if_pos hc]
      exact dispatchLoop_cap opsF maxEv hm rest n
    · rw [if_neg hc]
      by_cases hcap : 0 < maxEv ∧ maxEv < n + 1
      · rw [if_pos hcap]
        simp
      · rw [if_neg hcap]
        have hle : n + 1 ≤ maxEv := by
          rcases Decidable.not_and_iff_or_not.1 hcap with h1 | h2
          · exact absurd hm h1
          · omega
        have hrec := dispatchLoop_cap opsF maxEv hm rest (n + 1)
        rw [List.length_cons]
        omega

/-- Claim C5: an event whose kind is not in the configured non-empty filter is
silently dropped with no effect on the per-cycle counter (the cycle behaves as
if the event were never produced), and a configured positive cap of maxEv
events bounds the number of events forwarded in one cycle; events beyond the
cap are dropped, and the next cycle starts from a fresh counter, so nothing is
carried over. -/
theorem dispatch_filter_and_cap (opsF : List Op) (maxEv : Int) (evts : List Event) :
    (opsF ≠ [] →
      dispatchCycle opsF maxEv evts
        = dispatchCycle opsF maxEv (evts.filter (fun e => opsF.contains e.op)))
    ∧ (0 < maxEv → (dispatchCycle opsF maxEv evts).length ≤ maxEv.toNat) := by
  constructor
  · intro h
    exact dispatchLoop_filter_erasure opsF maxEv h evts 0
  · intro hm
    have := dispatchLoop_cap opsF maxEv hm evts 0
    simpa using this

/-- Witness for Claim C5: with a Write-only filter the Chmod event is erased
from the cycle, and with a cap of one event at most one event is forwarded. -/
theorem dispatch_filter_and_cap_witness :
    dispatchCycle [Op.Write] 1 exEvtsC5
        = dispatchCycle [Op.Write] 1 (exEvtsC5.filter (fun e => [Op.Write].contains e.op))
      ∧ (dispatchCycle [Op.Write] 1 exEvtsC5).length ≤ (1 : Int).toNat :=
  ⟨(dispatch_filter_and_cap [Op.Write] 1 exEvtsC5).1 (by decide),
   (dispatch_filter_and_cap [Op.Write] 1 exEvtsC5).2 (by decide)⟩

/-- Claim C6: Start with an interval below one nanosecond fails with the
duration error before touching any state, leaving the watcher startable (the
same state, once not running, starts successfully); Start on a watcher that is
already running fails with the running error and performs no transition, so a
second loop instance is never entered. -/
theorem start_interval_and_running_guard (w : WatcherState) (d : Int) :
    (d < 1 → startCheck w d = .error .durationTooShort)
    ∧ (1 ≤ d → w.running = true → startCheck w d = .error .alreadyRunning)
    ∧ (1 ≤ d → w.running = false → startCheck w d = .ok { w with running := true }) := by
  refine ⟨fun h => ?_, fun h hr => ?_, fun h hr => ?_⟩
  · simp [startCheck, h]
  · simp [startCheck, hr]
    omega
  · simp only [startCheck, if_neg (by omega : ¬ d < 1), hr]
    simp

/-- Witness for Claim C6: a fresh watcher rejects a zero interval, a running
watcher rejects a second Start, and the same not-running state starts. -/
theorem start_interval_and_running_guard_witness :
    startCheck {} 0 = .error .durationTooShort
      ∧ startCheck { running := true } 5 = .error .alreadyRunning
      ∧ startCheck {} 5 = .ok { running := true } :=
  ⟨(start_interval_and_running_guard {} 0).1 (by decide),
   (start_interval_and_running_guard { running := true } 5).2.1 (by decide) rfl,
   (start_interval_and_running_guard {} 5).2.2 (by decide) rfl⟩

/-- Lookup after filtering by a predicate on the key alone. -/
theorem lookupKey_filter_key {α : Type} (l : List (String × α)) (f : String → Bool)
    (k : String) :
    lookupKey (l.filter (fun e => f e.1)) k
      = if f k = true then lookupKey l k else none := by
  induction l with
  | nil => cases hf : f k <;> simp [lookupKey, hf]
  | cons e t ih =>
    by_cases he : e.1 = k
    · cases hf : f k
      · rw [List.filter_cons]
        rw [show f e.1 = false by rw [he, hf]]
        simpa [lookupKey, he, hf] using ih
      · rw [List.filter_cons]
        rw [show f e.1 = true by rw [he, hf]]
        simp [lookupKey, he, hf]
    · cases hf : f e.1
      · rw [List.filter_cons, hf]
        simpa [lookupKey, he] using ih
      · rw [List.filter_cons, hf]
        simpa [lookupKey, he] using ih

/-- Claim C9: removing a tracked directory path non-recursively deletes from
the snapshot exactly the path itself and its immediate children (tracked
entries whose parent directory it is); every other tracked entry, nested
descendants included, still resolves to its old metadata. -/
theorem remove_deletes_immediate_children (cwd : Except String String)
    (w : WatcherState) (p : String) (info : FileInfo)
    (habs : goAbs cwd p = .ok p)
    (htracked : lookupKey w.files p = some info) (hdir : info.dir = true) :
    goRemove cwd w p = .ok { w with
        names := eraseKey w.names p
        files := w.files.filter (fun e => !(e.1 == p) && !(goDir e.1 == p)) }
      ∧ ∀ q : String,
        lookupKey (w.files.filter (fun e => !(e.1 == p) && !(goDir e.1 == p))) q
          = if q = p ∨ goDir q = p then none else lookupKey w.files q := by
  constructor
  · simp [goRemove, habs, htracked, hdir]
  · intro q
    calc lookupKey (w.files.filter (fun e => !(e.1 == p) && !(goDir e.1 == p))) q
        = if (!(q == p) && !(goDir q == p)) = true then lookupKey w.files q else none :=
          lookupKey_filter_key w.files (fun s => !(s == p) && !(goDir s == p)) q
      _ = if q = p ∨ goDir q = p then none else lookupKey w.files q := by
          by_cases hq : q = p ∨ goDir q = p
          · rw [if_pos hq]
            rcases hq with h1 | h2
            · simp [h1]
            · simp [h2]
          · rw [if_neg hq]
            push_neg at hq
            simp [hq.1, hq.2]

/-- Witness for Claim C9: after removing the tracked directory, the nested
descendant is still looked up unchanged while the directory itself would be
gone. -/
theorem remove_deletes_immediate_children_witness :
    lookupKey (exStateC9.files.filter
        (fun e => !(e.1 == "/d") && !(goDir e.1 == "/d"))) "/d/sub/g"
      = if "/d/sub/g" = "/d" ∨ goDir "/d/sub/g" = "/d" then none
        else lookupKey exStateC9.files "/d/sub/g" :=
  (remove_deletes_immediate_children (.error "no wd") exStateC9 "/d"
    (FileInfo.mk "d" 0 493 1 true) rfl (by decide) (by decide)).2 "/d/sub/g"

/-- Every event of the Write and Chmod stage carries a Write or Chmod kind. -/
theorem writeChmodEvents_ops (old new : Snapshot) :
    ∀ e ∈ writeChmodEvents old new, e.op = Op.Write ∨ e.op = Op.Chmod := by
  intro e he
  rw [writeChmodEvents] at he
  rcases List.mem_flatMap.1 he with ⟨a, _, hfa⟩
  revert hfa
  cases lookupKey old a.1 with
  | none => intro hfa; cases hfa
  | some oldInfo =>
    intro hfa
    rcases List.mem_append.1 hfa with h1 | h2
    · left
      split_ifs at h1
      · rw [List.mem_singleton.1 h1]
      · cases h1
    · right
      split_ifs at h2
      · rw [List.mem_singleton.1 h2]
      · cases h2

/-- Claim C4: one diff emits its events grouped and ordered by category: first
the Write and Chmod events, then the Rename and Move events, then the leftover
Create events, then the leftover Remove events; iteration order inside one
category is the unspecified map order. -/
theorem diff_event_ordering (old new : Snapshot) :
    pollEvents old new
        = writeChmodEvents old new
          ++ (pairCandidates (diffRemoves old new) (diffCreates old new)).map mkMoveEvent
          ++ (unmatchedCreates (diffRemoves old new) (diffCreates old new)).map mkCreateEvent
          ++ (unmatchedRemoves (diffRemoves old new) (diffCreates old new)).map mkRemoveEvent
      ∧ (∀ e ∈ writeChmodEvents old new, e.op = Op.Write ∨ e.op = Op.Chmod)
      ∧ (∀ e ∈ (pairCandidates (diffRemoves old new) (diffCreates old new)).map mkMoveEvent,
          e.op = Op.Rename ∨ e.op = Op.Move)
      ∧ (∀ e ∈ (unmatchedCreates (diffRemoves old new) (diffCreates old new)).map mkCreateEvent,
          e.op = Op.Create)
      ∧ (∀ e ∈ (unmatchedRemoves (diffRemoves old new) (diffCreates old new)).map mkRemoveEvent,
          e.op = Op.Remove) := by
  refine ⟨rfl, writeChmodEvents_ops old new, ?_, ?_, ?_⟩
  · intro e he
    rcases List.mem_map.1 he with ⟨pr, _, hpr⟩
    rw [← hpr, mkMoveEvent]
    by_cases h : goDir pr.1.1 = goDir pr.2.1 <;> simp [h]
  · intro e he
    rcases List.mem_map.1 he with ⟨c, _, hc⟩
    rw [← hc, mkCreateEvent]
  · intro e he
    rcases List.mem_map.1 he with ⟨r, _, hr⟩
    rw [← hr, mkRemoveEvent]

/-- Witness for Claim C4: the concrete Write event of the first stage indeed
carries a Write or Chmod kind. -/
theorem diff_event_ordering_witness :
    (Event.mk Op.Write "/a/x" (FileInfo.mk "x" 10 420 200 false)).op = Op.Write
      ∨ (Event.mk Op.Write "/a/x" (FileInfo.mk "x" 10 420 200 false)).op = Op.Chmod :=
  (diff_event_ordering exOldC4 exNewC4).2.1
    (Event.mk Op.Write "/a/x" (FileInfo.mk "x" 10 420 200 false)) (by decide)

/-- Every pairing produced by the rename and move resolution matches on
metadata. -/
theorem pairCandidates_sameFile :
    ∀ (R C : List (String × FileInfo)) (r c : String × FileInfo),
      (r, c) ∈ pairCandidates R C → sameFile r.2 c.2 = true
  | [], _, r, c => by intro h; cases h
  | r0 :: rest, C, r, c => by
    intro h
    rcases List.mem_append.1 h with h1 | h2
    · rcases List.mem_map.1 h1 with ⟨c0, hc0, heq⟩
      have hr : r0 = r := congrArg Prod.fst heq
      have hc : c0 = c := congrArg Prod.snd heq
      rw [← hr, ← hc]
      exact (List.mem_filter.1 hc0).2
    · exact pairCandidates_sameFile rest _ r c h2

/-- Claim C3: every removal and creation candidate the resolution pairs has
matching metadata, and the emitted event is in the diff output, classified as
Rename exactly when the two paths share their parent directory and Move
otherwise, with the path encoded as "old -> new" and the metadata taken from
the old entry. -/
theorem diff_rename_move_classification (old new : Snapshot)
    (r c : String × FileInfo)
    (hpr : (r, c) ∈ pairCandidates (diffRemoves old new) (diffCreates old new)) :
    sameFile r.2 c.2 = true
      ∧ mkMoveEvent (r, c) ∈ pollEvents old new
      ∧ (mkMoveEvent (r, c)).op
          = (if goDir r.1 = goDir c.1 then Op.Rename else Op.Move)
      ∧ (mkMoveEvent (r, c)).path = r.1 ++ " -> " ++ c.1
      ∧ (mkMoveEvent (r, c)).info = r.2 := by
  refine ⟨pairCandidates_sameFile _ _ r c hpr, ?_, rfl, rfl, rfl⟩
  exact List.mem_append.2 (Or.inl (List.mem_append.2 (Or.inl
    (List.mem_append.2 (Or.inr (List.mem_map_of_mem mkMoveEvent hpr))))))

/-- Witness for Claim C3: the concrete matched pair is classified (here as a
same-directory Rename), emitted, encoded and carries the old metadata. -/
theorem diff_rename_move_classification_witness :
    sameFile (FileInfo.mk "x" 10 420 100 false) (FileInfo.mk "y" 10 420 100 false) = true
      ∧ mkMoveEvent (("/a/x", FileInfo.mk "x" 10 420 100 false),
          ("/a/y", FileInfo.mk "y" 10 420 100 false)) ∈ pollEvents exOldC3 exNewC3
      ∧ (mkMoveEvent (("/a/x", FileInfo.mk "x" 10 420 100 false),
          ("/a/y", FileInfo.mk "y" 10 420 100 false))).op
          = (if goDir "/a/x" = goDir "/a/y" then Op.Rename else Op.Move)
      ∧ (mkMoveEvent (("/a/x", FileInfo.mk "x" 10 420 100 false),
          ("/a/y", FileInfo.mk "y" 10 420 100 false))).path = "/a/x" ++ " -> " ++ "/a/y"
      ∧ (mkMoveEvent (("/a/x", FileInfo.mk "x" 10 420 100 false),
          ("/a/y", FileInfo.mk "y" 10 420 100 false))).info
          = FileInfo.mk "x" 10 420 100 false :=
  diff_rename_move_classification exOldC3 exNewC3
    ("/a/x", FileInfo.mk "x" 10 420 100 false)
    ("/a/y", FileInfo.mk "y" 10 420 100 false) (by decide)

/-- Counting matches across the split of a list by a predicate. -/
theorem countP_filter_split {α : Type} (p q : α → Bool) :
    ∀ l : List α,
      (l.filter p).countP q + (l.filter (fun a => !(p a))).countP q = l.countP q
  | [] => rfl
  | a :: t => by
    have ih := countP_filter_split p q t
    cases hp : p a <;> cases hq : q a <;>
      simp [List.filter_cons, List.countP_cons, hp, hq] <;> omega

/-- Counting pairs by destination over the pairing of one removal candidate
with its matched creation candidates. -/
theorem countP_map_pair_dst (r : String × FileInfo) (m : List (String × FileInfo))
    (q : String) :
    (m.map (fun c => (r, c))).countP (fun pr => pr.2.1 == q)
      = m.countP (fun c => c.1 == q) := by
  rw [List.countP_map]
  rfl

/-- Counting pairs by source over the pairing of one removal candidate with its
matched creation candidates. -/
theorem countP_map_pair_src (r : String × FileInfo) (m : List (String × FileInfo))
    (p : String) :
    (m.map (fun c => (r, c))).countP (fun pr => pr.1.1 == p)
      = if r.1 == p then m.length else 0 := by
  rw [List.countP_map]
  have hfun : ((fun pr : (String × FileInfo) × (String × FileInfo) => pr.1.1 == p)
      ∘ (fun c : String × FileInfo => (r, c))) = (fun _ => (r.1 == p)) := rfl
  rw [hfun]
  cases hr : r.1 == p
  · simp [hr]
  · simp [hr]

/-- Each creation candidate is consumed exactly once across the rename and move
pairings and the leftover creation candidates: counted by key, pairings plus
leftovers equal the original candidates. -/
theorem pairCandidates_create_count (q : String) :
    ∀ (R C : List (String × FileInfo)),
      (pairCandidates R C).countP (fun pr => pr.2.1 == q)
        + (unmatchedCreates R C).countP (fun c => c.1 == q)
      = C.countP (fun c => c.1 == q)
  | [], C => by simp [pairCandidates, unmatchedCreates]
  | r :: rest, C => by
    have ih := pairCandidates_create_count q rest (C.filter (fun c => !(sameFile r.2 c.2)))
    have hsplit := countP_filter_split (fun c => sameFile r.2 c.2) (fun c => c.1 == q) C
    simp only [pairCandidates, unmatchedCreates, List.countP_append]
    rw [countP_map_pair_dst]
    omega

/-- Each removal candidate accounts for at least one terminal item: it either
appears among the pairings (possibly several times) or among the leftover
removal candidates. -/
theorem pairCandidates_remove_count (p : String) :
    ∀ (R C : List (String × FileInfo)),
      R.countP (fun r => r.1 == p)
        ≤ (pairCandidates R C).countP (fun pr => pr.1.1 == p)
          + (unmatchedRemoves R C).countP (fun r => r.1 == p)
  | [], C => by simp [pairCandidates, unmatchedRemoves]
  | r :: rest, C => by
    have ih := pairCandidates_remove_count p rest (C.filter (fun c => !(sameFile r.2 c.2)))
    simp only [pairCandidates, unmatchedRemoves, List.countP_append, List.countP_cons]
    rw [countP_map_pair_src]
    cases hm : C.filter (fun c => sameFile r.2 c.2) with
    | nil =>
      cases hr : r.1 == p <;> simp [List.countP_cons, hr] <;> omega
    | cons c0 cs =>
      cases hr : r.1 == p <;> simp [List.countP_cons, hr] <;> omega

/-- Key filters keep the key invariant. -/
theorem nodupKeys_filter {α : Type} {l : List (String × α)} (hn : nodupKeys l)
    (p : String × α → Bool) : nodupKeys (l.filter p) :=
  List.Nodup.sublist (List.Sublist.map Prod.fst (List.filter_sublist l)) hn

/-- With distinct keys, a present key is counted exactly once. -/
theorem countP_key_eq_one_of_nodup {α : Type} {l : List (String × α)}
    (hn : nodupKeys l) {q : String} (hq : q ∈ l.map Prod.fst) :
    l.countP (fun e => e.1 == q) = 1 := by
  induction l with
  | nil => cases hq
  | cons e t ih =>
    have hn2 : (e.1 ∉ t.map Prod.fst) ∧ (t.map Prod.fst).Nodup := by
      simpa [nodupKeys] using hn
    rw [List.countP_cons]
    rcases (by simpa using hq : q = e.1 ∨ ∃ x, (q, x) ∈ t) with h1 | ⟨x, hx⟩
    · have ht : t.countP (fun y => y.1 == q) = 0 := by
        rw [List.countP_eq_zero]
        intro a ha
        simp only [beq_iff_eq]
        intro heq
        have hmem : a.1 ∈ t.map Prod.fst := List.mem_map_of_mem Prod.fst ha
        rw [heq, h1] at hmem
        exact hn2.1 hmem
      simp [ht, ← h1]
    · have h2 : q ∈ t.map Prod.fst := List.mem_map.2 ⟨(q, x), hx, rfl⟩
      have hne : e.1 ≠ q := fun he => hn2.1 (he ▸ h2)
      simp [ih hn2.2 h2, hne]

/-- A present key is counted at least once. -/
theorem countP_key_pos_of_mem {α : Type} {l : List (String × α)} {q : String}
    (hq : q ∈ l.map Prod.fst) : 1 ≤ l.countP (fun e => e.1 == q) := by
  rcases List.mem_map.1 hq with ⟨e, he, rfl⟩
  exact List.countP_pos_iff.mpr ⟨e, he, by simp⟩

/-- Counterexample to Claim C1 as stated: the path removed between the two
snapshots produces two terminal events, not exactly one, because the pairing
loop keeps scanning with the same removal candidate after a match; the diff of
the concrete snapshots is exactly two Rename events for the one removed
path. -/
theorem diff_double_pairing_counterexample :
    lookupKey exOldC1 "/a/x" = some (FileInfo.mk "x" 10 420 100 false)
      ∧ lookupKey exNewC1 "/a/x" = none
      ∧ pollEvents exOldC1 exNewC1
          = [Event.mk Op.Rename "/a/x -> /a/y" (FileInfo.mk "x" 10 420 100 false),
             Event.mk Op.Rename "/a/x -> /a/z" (FileInfo.mk "x" 10 420 100 false)]
      ∧ removalTerminalCount (pollEvents exOldC1 exNewC1) "/a/x" = 2 := by
  decide

/-- Claim C1 (amended): the diff output decomposes into the write and chmod
stage, the pairing stage, the leftover creates and the leftover removes; each
creation candidate (each path in new minus old) is consumed by exactly one
terminal item among pairings and leftover creates; each removal candidate
(each path in old minus new) is consumed by at least one terminal item among
pairings and leftover removes, but a removal candidate can pair with several
creation candidates whose metadata all match it, so exactly-once consumption
fails on the removal side. -/
theorem diff_terminal_events (old new : Snapshot) (hnew : nodupKeys new) :
    pollEvents old new
        = writeChmodEvents old new
          ++ (pairCandidates (diffRemoves old new) (diffCreates old new)).map mkMoveEvent
          ++ (unmatchedCreates (diffRemoves old new) (diffCreates old new)).map mkCreateEvent
          ++ (unmatchedRemoves (diffRemoves old new) (diffCreates old new)).map mkRemoveEvent
      ∧ (∀ q ∈ (diffCreates old new).map Prod.fst,
          (pairCandidates (diffRemoves old new) (diffCreates old new)).countP
              (fun pr => pr.2.1 == q)
            + (unmatchedCreates (diffRemoves old new) (diffCreates old new)).countP
              (fun c => c.1 == q) = 1)
      ∧ (∀ p ∈ (diffRemoves old new).map Prod.fst,
          1 ≤ (pairCandidates (diffRemoves old new) (diffCreates old new)).countP
              (fun pr => pr.1.1 == p)
            + (unmatchedRemoves (diffRemoves old new) (diffCreates old new)).countP
              (fun r => r.1 == p)) := by
  refine ⟨rfl, ?_, ?_⟩
  · intro q hq
    rw [pairCandidates_create_count]
    exact countP_key_eq_one_of_nodup (nodupKeys_filter hnew _) hq
  · intro p hp
    exact le_trans (countP_key_pos_of_mem hp) (pairCandidates_remove_count p _ _)

/-- Witness for Claim C1 (amended): in the concrete double-match snapshots,
the first fresh path is consumed exactly once. -/
theorem diff_terminal_events_witness :
    (pairCandidates (diffRemoves exOldC1 exNewC1) (diffCreates exOldC1 exNewC1)).countP
        (fun pr => pr.2.1 == "/a/y")
      + (unmatchedCreates (diffRemoves exOldC1 exNewC1) (diffCreates exOldC1 exNewC1)).countP
        (fun c => c.1 == "/a/y") = 1 :=
  (diff_terminal_events exOldC1 exNewC1 (by decide)).2.1 "/a/y" (by decide)

/-- A recursive walk with the ignored path in the ignore set never yields an
entry at that path, from any root and at any depth: the walk prunes the path
when it reaches it and otherwise never forms it. -/
theorem goWalkF_not_ignored (ign : List String) (ihid : Bool) (q : String)
    (hq : q ∈ ign) :
    ∀ (fuel : Nat) (path : String) (n : FsNode) (i : FileInfo),
      (q, i) ∉ goWalkF ign ihid fuel path n := by
  intro fuel
  induction fuel with
  | zero => intro path n i h; cases h
  | succ fuel ihf =>
    intro path n i h
    rw [goWalkF] at h
    by_cases hcond : (ign.contains path || (ihid && strStarts n.info.name ".")) = true
    · rw [if_pos hcond] at h
      cases h
    · rw [if_neg hcond] at h
      rcases List.mem_cons.1 h with h1 | h2
      · have hpq : q = path := congrArg Prod.fst h1
        have hct : ign.contains path = true := by
          rw [← hpq]
          exact List.elem_eq_true_of_mem hq
        exact hcond (by rw [hct]; exact Bool.true_or _)
      · by_cases hd : n.info.dir = true
        · rw [if_pos hd] at h2
          rcases List.mem_flatMap.1 h2 with ⟨c, _, hcm⟩
          exact ihf (joinPath path c.info.name) c i hcm
        · rw [if_neg hd] at h2
          cases h2

/-- A non-recursive listing rooted anywhere other than the ignored path never
yields an entry at that path: every child path equal to it is skipped by the
exact-match ignore check. -/
theorem goListDir_not_ignored (ign : List String) (ihid : Bool) (q : String)
    (hq : q ∈ ign) (root : String) (n : FsNode) (hroot : root ≠ q)
    (i : FileInfo) : (q, i) ∉ goListDir ign ihid root n := by
  intro h
  rcases List.mem_cons.1 h with h1 | h2
  · exact hroot (congrArg Prod.fst h1).symm
  · by_cases hd : n.info.dir = true
    · rw [if_pos hd] at h2
      rcases List.mem_filterMap.1 h2 with ⟨c, _, hc⟩
      by_cases hcnd : (ign.contains (joinPath root c.info.name)
          || (ihid && strStarts c.info.name ".")) = true
      · rw [if_pos hcnd] at hc
        cases hc
      · rw [if_neg hcnd] at hc
        have hqp : joinPath root c.info.name = q :=
          congrArg Prod.fst (Option.some.inj hc)
        have hct : ign.contains (joinPath root c.info.name) = true := by
          rw [hqp]
          exact List.elem_eq_true_of_mem hq
        exact hcnd (by rw [hct]; exact Bool.true_or _)
    · rw [if_neg hd] at h2
      cases h2

/-- Claim C7 (amended): Ignore on one path adds the resolved path to the
ignore set and removes exactly that path from the watch root registry (roots
strictly extending it remain registered); the snapshot purge happens only when
the path itself is tracked: tracked as a directory, every entry whose path has
it as a string prefix is removed, tracked as a file only the path itself is
removed, untracked nothing is removed.  Afterwards no recursive listing from
any root and no non-recursive listing from a root other than the ignored path
itself can produce an entry at the ignored path, though entries merely
extending it as a string can be produced again. -/
theorem ignore_behavior_amended (cwd : Except String String) (w : WatcherState)
    (p q : String) (habs : goAbs cwd p = .ok q) (hq : goAbs cwd q = .ok q) :
    (goIgnore cwd w [p]).2 = none
      ∧ q ∈ (goIgnore cwd w [p]).1.ignored
      ∧ (goIgnore cwd w [p]).1.names = eraseKey w.names q
      ∧ (lookupKey w.files q = none → (goIgnore cwd w [p]).1.files = w.files)
      ∧ (∀ i : FileInfo, lookupKey w.files q = some i → i.dir = false →
          (goIgnore cwd w [p]).1.files = eraseKey w.files q)
      ∧ (∀ i : FileInfo, lookupKey w.files q = some i → i.dir = true →
          (goIgnore cwd w [p]).1.files = w.files.filter (fun e => !(strStarts e.1 q)))
      ∧ (∀ (ihid : Bool) (fuel : Nat) (path : String) (n : FsNode) (i : FileInfo),
          (q, i) ∉ goWalkF (goIgnore cwd w [p]).1.ignored ihid fuel path n)
      ∧ (∀ (ihid : Bool) (root : String) (n : FsNode) (i : FileInfo), root ≠ q →
          (q, i) ∉ goListDir (goIgnore cwd w [p]).1.ignored ihid root n) := by
  have hres : goIgnore cwd w [p]
      = ({ w with
            names := eraseKey w.names q
            files :=
              (match lookupKey w.files q with
                | none => w.files
                | some info =>
                  if info.dir then w.files.filter (fun e => !(strStarts e.1 q))
                  else eraseKey w.files q)
            ignored := w.ignored.insert q }, none) := by
    rcases hL : lookupKey w.files q with _ | info
    · simp [goIgnore, habs, goRemoveRecursive, hq, hL]
    · by_cases hd : info.dir = true
      · simp [goIgnore, habs, goRemoveRecursive, hq, hL, hd]
      · simp [goIgnore, habs, goRemoveRecursive, hq, hL, hd]
  have hmem : q ∈ (goIgnore cwd w [p]).1.ignored := by
    rw [hres]
    exact List.mem_insert_self q w.ignored
  refine ⟨by rw [hres], hmem, by rw [hres], ?_, ?_, ?_, ?_, ?_⟩
  · intro hL
    rw [hres]
    simp [hL]
  · intro i hL hd
    rw [hres]
    simp [hL, hd]
  · intro i hL hd
    rw [hres]
    simp [hL, hd]
  · intro ihid fuel path n i
    exact goWalkF_not_ignored _ ihid q hmem fuel path n i
  · intro ihid root n i hroot
    exact goListDir_not_ignored _ ihid q hmem root n hroot i

/-- Counterexample to Claim C7 as stated: ignoring the untracked path leaves
the tracked entry whose path extends it in both the snapshot and the watch
root registry, because the recursive removal purges nothing when the ignored
path itself is not a tracked key and the registry only ever loses the exact
path. -/
theorem ignore_purge_counterexample :
    (goIgnore (.error "no wd") exStateC7 ["/a/b"]).2 = none
      ∧ strStarts "/a/b/c" "/a/b" = true
      ∧ lookupKey (goIgnore (.error "no wd") exStateC7 ["/a/b"]).1.files "/a/b/c"
          = some (FileInfo.mk "c" 0 493 1 true)
      ∧ lookupKey (goIgnore (.error "no wd") exStateC7 ["/a/b"]).1.names "/a/b/c"
          = some true := by
  decide

/-- Witness for Claim C7 (amended): ignoring the path on the concrete state
puts it into the ignore set. -/
theorem ignore_behavior_amended_witness :
    "/a/b" ∈ (goIgnore (.error "wd gone") exStateC7 ["/a/b"]).1.ignored :=
  (ignore_behavior_amended (.error "wd gone") exStateC7 "/a/b" "/a/b" rfl rfl).2.1

/-- Claim C10: Ignore over several paths is not atomic on error: when the
first path resolves and is recursively removed but resolving the second path
fails, the error is returned while the first path has already been purged and
added to the ignore set, and neither the failing path nor any later path is
added. -/
theorem ignore_not_atomic_on_error (cwd : Except String String)
    (w w1 : WatcherState) (p1 p2 : String) (ps : List String) (q e : String)
    (h1 : goAbs cwd p1 = .ok q)
    (h2 : goRemoveRecursive cwd w q = .ok w1)
    (h3 : goAbs cwd p2 = .error e) :
    goIgnore cwd w (p1 :: p2 :: ps)
        = ({ w1 with ignored := w1.ignored.insert q }, some e)
      ∧ q ∈ ({ w1 with ignored := w1.ignored.insert q }).ignored := by
  constructor
  · simp [goIgnore, h1, h2, h3]
  · exact List.mem_insert_self q w1.ignored

/-- Witness for Claim C10: with a failing working directory lookup, ignoring
the absolute path succeeds and purges it, then the relative path fails to
resolve; the error is returned with the first path already ignored. -/
theorem ignore_not_atomic_on_error_witness :
    goIgnore (.error "getwd failed") exStateC10 ["/a", "rel"]
        = ({ ignored := ["/a"] }, some "getwd failed")
      ∧ "/a" ∈ ({ ({} : WatcherState) with
          ignored := (({} : WatcherState)).ignored.insert "/a" }).ignored :=
  ⟨(ignore_not_atomic_on_error (.error "getwd failed") exStateC10 {} "/a" "rel" []
      "/a" "getwd failed" rfl rfl rfl).1,
   (ignore_not_atomic_on_error (.error "getwd failed") exStateC10 {} "/a" "rel" []
      "/a" "getwd failed" rfl rfl rfl).2⟩

/-- Counterexample to Claim C8 as stated: with hidden suppression enabled, Add
on a path whose base name is hidden is not a no-op: the hidden check of Add
tests the resolved absolute path (which starts with a slash, never a dot), so
the root is registered and the entry enters the snapshot. -/
theorem add_noop_counterexample :
    exStateC8.ignoreHidden = true
      ∧ strStarts ".h" "." = true
      ∧ goAdd (.error "no wd") exFsC8 exStateC8 "/tmp/.h"
          = .ok { exStateC8 with
              files := [("/tmp/.h", FileInfo.mk ".h" 5 420 7 false)]
              names := [("/tmp/.h", false)] } :=
  ⟨rfl, by decide, rfl⟩

/-- Claim C8 (amended): Add is a no-op (success, no root registered, no entry
added) exactly when the Go condition holds for the resolved path: membership
in the ignore set, or hidden suppression together with the resolved absolute
path itself starting with a dot (which an absolute path never does, so a
hidden base name does not trigger it).  AddRecursive applies no such check to
its argument: even for an ignored root it registers the root in the registry,
although the recursive listing prunes the ignored subtree so no snapshot entry
is added. -/
theorem add_noop_amended (cwd : Except String String) (fs : String → Option FsNode)
    (w : WatcherState) (p q : String) (habs : goAbs cwd p = .ok q) :
    ((w.ignored.contains q || (w.ignoreHidden && strStarts q ".")) = true →
        goAdd cwd fs w p = .ok w)
      ∧ (∀ (n : FsNode) (fuel : Nat), q ∈ w.ignored → fs q = some n →
          goAddRecursive cwd fs fuel w p
            = .ok { w with names := setKey w.names q true }) := by
  constructor
  · intro hcond
    simp only [goAdd, habs]
    rw [if_pos hcond]
  · intro n fuel hmem hfs
    have hwalk : goWalkF w.ignored w.ignoreHidden fuel q n = [] := by
      cases fuel with
      | zero => rfl
      | succ fuel =>
        have hct : w.ignored.contains q = true := List.elem_eq_true_of_mem hmem
        rw [goWalkF, if_pos (by rw [hct]; exact Bool.true_or _)]
    simp [goAddRecursive, habs, hfs, hwalk, mapUpsert]

/-- Witness for Claim C8 (amended): Add on the ignored path is a no-op, while
AddRecursive on the same ignored path still registers a recursive root and
adds no snapshot entry. -/
theorem add_noop_amended_witness :
    goAdd (.error "no wd") exFsC8b exStateC8b "/ig" = .ok exStateC8b
      ∧ goAddRecursive (.error "no wd") exFsC8b 5 exStateC8b "/ig"
          = .ok { exStateC8b with names := setKey exStateC8b.names "/ig" true } :=
  ⟨(add_noop_amended (.error "no wd") exFsC8b exStateC8b "/ig" "/ig" rfl).1 (by decide),
   (add_noop_amended (.error "no wd") exFsC8b exStateC8b "/ig" "/ig" rfl).2
     (FsNode.node (FileInfo.mk "ig" 0 493 2 true) []) 5 (by decide) rfl⟩
